import Mathlib

/-!
Shallow embedding of the core logic of the Ultimate AI Image Editor
(src/index.tsx): the reference store (a JS Map from key to stored image),
prompt reference resolution (the regex @(\w+) scanned over the prompt),
request-part assembly for the model call, the save/rename handlers of the
reference-management UI, and the mask editor's diff-based mask synthesis
together with its undo history.

JS strings are modelled as Lean String (with List Char as the underlying
data); JS Map iteration order (insertion order) is modelled by association
lists; JS Set iteration order (insertion order) by duplicate-free lists
keeping first occurrences; the non-null assertion operator of TypeScript,
which throws on a missing value, is modelled by Option-valued results.
-/

/-- The character class \w of the source regexes REFERENCE_REGEX and
KEY_REGEX (ASCII letters, digits and underscore, as in a non-unicode
JavaScript regex). -/
def isWordChar (c : Char) : Bool :=
  c.isAlphanum || c == '_'

/-- KEY_REGEX from the source: a key is valid when it matches ^\w+$. -/
def keyValid (s : String) : Bool :=
  !s.data.isEmpty && s.data.all isWordChar

/-- Whitespace characters removed by JavaScript String.prototype.trim. -/
def isJsWhitespace (c : Char) : Bool :=
  c == ' ' || c == '\t' || c == '\n' || c == '\r' || c == '\u000B' ||
    c == '\u000C' || c == ' ' || c == '﻿'

/-- JavaScript String.prototype.trim: drop whitespace from both ends. -/
def jsTrim (s : String) : String :=
  ((s.data.dropWhile isJsWhitespace).reverse.dropWhile isJsWhitespace).reverse.asString

/-- A stored image: the value type of the references map and of the staged
image (src/index.tsx line 16): a data string (a data URL) and a mime type. -/
structure StoredImage where
  data : String
  mimeType : String
deriving Repr, DecidableEq

/-- The references map (src/index.tsx line 16), modelled as an association
list in JS Map insertion order. -/
abbrev RefStore := List (String × StoredImage)

/-- JS Map.has. -/
def mapHas (m : RefStore) (k : String) : Bool :=
  m.any (fun e => e.1 == k)

/-- JS Map.get (undefined modelled as none). -/
def mapGet (m : RefStore) (k : String) : Option StoredImage :=
  (m.find? (fun e => e.1 == k)).map (fun e => e.2)

/-- JS Map.set: update in place when the key is present, else append at the
end of the iteration order. -/
def mapSet (m : RefStore) (k : String) (v : StoredImage) : RefStore :=
  if mapHas m k then m.map (fun e => if e.1 == k then (k, v) else e)
  else m ++ [(k, v)]

/-- JS Map.delete: remove the entry with the given key. -/
def mapDelete (m : RefStore) (k : String) : RefStore :=
  m.filter (fun e => e.1 != k)

/-- The captures produced by prompt.matchAll(REFERENCE_REGEX) in order
(src/index.tsx line 159): scanning left to right, each match is an at sign
followed by a maximal nonempty run of word characters; the capture is that
run. An at sign not followed by a word character matches nothing and the
scan continues at the next character. -/
def extractRefs : List Char → List String
  | [] => []
  | c :: cs =>
    if c = '@' then
      let run := cs.takeWhile isWordChar
      if run.isEmpty then extractRefs cs
      else run.asString :: extractRefs (cs.dropWhile isWordChar)
    else extractRefs cs
termination_by l => l.length
decreasing_by
  · simp
  · simp only [List.length_cons]
    exact Nat.lt_succ_of_le (List.dropWhile_sublist isWordChar (l := cs)).length_le
  · simp

/-- JS Set construction from a list: keep the first occurrence of each
element, in order (models new Set([...]) at src/index.tsx line 159). -/
def dedupFirst : List String → List String
  | [] => []
  | x :: xs => x :: (dedupFirst xs).filter (fun y => y != x)

/-- The result of parsePromptForReferences: the set of referenced keys (in
insertion order) and the array of missing keys. -/
structure ParseResult where
  referencedKeys : List String
  missingKeys : List String
deriving Repr, DecidableEq

/-- parsePromptForReferences (src/index.tsx lines 158-169): collect the
regex captures into a Set, then push every key absent from the references
map onto missingKeys, iterating the Set in insertion order. -/
def parsePromptForReferences (references : RefStore) (prompt : String) : ParseResult :=
  let referencedKeys := dedupFirst (extractRefs prompt.data)
  { referencedKeys
    missingKeys := referencedKeys.filter (fun k => !(mapHas references k)) }

/-- Specification-side characterization of the reference tokens: for each
position i of the prompt holding an at sign, the maximal (possibly empty)
run of word characters that follows; positions whose run is empty
contribute no token. Tokens are listed in positional order. -/
def maximalTokens (l : List Char) : List String :=
  (List.range l.length).filterMap (fun i =>
    if l[i]? = some '@' then
      let run := (l.drop (i + 1)).takeWhile isWordChar
      if run.isEmpty then none else some run.asString
    else none)

/-- One part of a multimodal model request (the Part values built at
src/index.tsx lines 174-219): a text part or an inline-data image part.
The data field of an image part is Option-valued because the source
computes it by splitting the stored string at commas and taking the segment
at index 1, which in JavaScript is undefined when the stored string holds
no separator. -/
inductive ApiPart where
  | text (s : String)
  | inlineData (data : Option String) (mimeType : String)
deriving Repr, DecidableEq

/-- The staged image (src/index.tsx lines 17-23), without the File handle:
a data URL, its mime type, and the optional mask / mask preview data URLs. -/
structure StagedImage where
  data : String
  mimeType : String
  maskData : Option String
  maskPreviewData : Option String
deriving Repr, DecidableEq

/-- JavaScript String.prototype.split at the comma character: the list of
segments between commas (an empty input gives one empty segment). -/
def splitOnComma : List Char → List (List Char)
  | [] => [[]]
  | c :: cs =>
    if c = ',' then [] :: splitOnComma cs
    else
      match splitOnComma cs with
      | [] => [[c]]
      | s :: rest => (c :: s) :: rest

/-- Model of the expression taking index 1 of the comma-split of a stored
string, as used for every image part in buildApiParts: the second
comma-separated segment, none when there is no comma (JS undefined). -/
def jsSplitSecond (s : String) : Option String :=
  ((splitOnComma s.data)[1]?).map List.asString

/-- buildApiParts (src/index.tsx lines 174-219): the text part (the prompt,
or a default instruction when empty but an image is staged), then the
staged image part followed by its mask part when a mask is present, then
one image part per referenced key in set-iteration order. The source reads
each referenced key with a non-null assertion (references.get(key)!); a
missing key therefore makes the whole call fail, modelled as none. -/
def buildApiParts (references : RefStore) (prompt : String)
    (image : Option StagedImage) (referencedKeys : List String) :
    Option (List ApiPart) :=
  let effectivePrompt :=
    if prompt ≠ "" then prompt
    else if image.isSome then "Describe this image." else ""
  let textParts := if effectivePrompt ≠ "" then [ApiPart.text effectivePrompt] else []
  let imageParts :=
    match image with
    | none => []
    | some img =>
      match img.maskData with
      | some mask =>
        [ApiPart.inlineData (jsSplitSecond img.data) img.mimeType,
         ApiPart.inlineData (jsSplitSecond mask) img.mimeType]
      | none => [ApiPart.inlineData (jsSplitSecond img.data) img.mimeType]
  (referencedKeys.mapM (fun k => mapGet references k)).map (fun refs =>
    textParts ++ imageParts ++
      refs.map (fun r => ApiPart.inlineData (jsSplitSecond r.data) r.mimeType))

/-- Specification-side stripping of the data-URL envelope: everything after
the first comma separator (the raw encoded payload). -/
def stripDataUrlHeader (s : String) : String :=
  ((s.data.dropWhile (fun c => c != ',')).drop 1).asString

/-- A stored data string shaped like a data URL: it contains a separator
comma, and the payload after the first comma contains no further comma
(base64 payloads never do). -/
def dataUrlWellFormed (s : String) : Prop :=
  ',' ∈ s.data ∧ ',' ∉ (s.data.dropWhile (fun c => c != ',')).drop 1

instance (s : String) : Decidable (dataUrlWellFormed s) := by
  unfold dataUrlWellFormed; infer_instance

/-- The externally visible effect of one run of callGeminiApi
(src/index.tsx lines 120-152) up to the point of issuing the model call:
either a chat message is rendered and the run stops, or the run stops
silently (empty parts), or a model request with the given parts is issued,
or the run throws (the non-null assertion on a missing reference). -/
inductive ApiAction where
  | message (text : String)
  | request (parts : List ApiPart)
  | silentStop
  | crash
deriving Repr, DecidableEq

/-- The error message rendered when references are missing
(src/index.tsx line 129). -/
def missingKeysMessage (missingKeys : List String) : String :=
  "Error: The following reference keys were not found: " ++
    String.intercalate ", " missingKeys ++ "."

/-- callGeminiApi (src/index.tsx lines 120-152), up to the model call: the
empty-input guard, the missing-reference abort, part assembly, and the
empty-parts silent stop. -/
def callGeminiApi (references : RefStore) (prompt : String)
    (image : Option StagedImage) : ApiAction :=
  if prompt = "" ∧ image = none then
    .message "Please provide a prompt or an image."
  else
    let parsed := parsePromptForReferences references prompt
    if parsed.missingKeys ≠ [] then
      .message (missingKeysMessage parsed.missingKeys)
    else
      match buildApiParts references prompt image parsed.referencedKeys with
      | none => .crash
      | some parts => if parts = [] then .silentStop else .request parts

/-- Where the save-key modal was opened from (src/index.tsx line 25). -/
inductive SaveSource where
  | upload
  | generated
deriving Repr, DecidableEq

/-- The outcome of one run of handleSaveKey. -/
inductive SaveOutcome where
  | noImage
  | usedOnce
  | keyRequired
  | invalidKey
  | keyTaken
  | saved
deriving Repr, DecidableEq

/-- handleSaveKey (src/index.tsx lines 474-502): trim the key input; an
empty key is use-once (upload) or an error (generated); an invalid key or
a taken key is an error leaving the store unchanged; otherwise the image is
inserted under the key. -/
def handleSaveKey (references : RefStore) (imageToSave : Option StoredImage)
    (saveModalSource : SaveSource) (rawKey : String) : SaveOutcome × RefStore :=
  match imageToSave with
  | none => (.noImage, references)
  | some img =>
    let key := jsTrim rawKey
    if key = "" then
      if saveModalSource = .upload then (.usedOnce, references)
      else (.keyRequired, references)
    else if !keyValid key then (.invalidKey, references)
    else if mapHas references key then (.keyTaken, references)
    else (.saved, mapSet references key img)

/-- handleRename (src/index.tsx lines 567-585): trim the input; renaming to
the same key is a no-op; an invalid or taken new key leaves the store
unchanged (the input is reverted); otherwise the old entry is deleted and
reinserted under the new key. The source reads the old entry with a
non-null assertion, modelled as none when the old key is absent. -/
def handleRename (references : RefStore) (oldKey : String) (rawNewKey : String) :
    Option RefStore :=
  let newKey := jsTrim rawNewKey
  if newKey = oldKey then some references
  else if !keyValid newKey || (mapHas references newKey && newKey != oldKey) then
    some references
  else
    match mapGet references oldKey with
    | some refData => some (mapSet (mapDelete references oldKey) newKey refData)
    | none => none

/-- A pixel buffer (ImageData.data): the flat RGBA channel array, one Nat
per channel. -/
abbrev Buffer := List Nat

/-- The pixel loop of saveMask (src/index.tsx lines 640-659): walk the two
buffers four channels at a time; a pixel whose four channels all agree
yields opaque black, any difference yields opaque white. -/
def saveMaskPixels : Buffer → Buffer → Buffer
  | o0 :: o1 :: o2 :: o3 :: os, c0 :: c1 :: c2 :: c3 :: cs =>
    (if o0 ≠ c0 ∨ o1 ≠ c1 ∨ o2 ≠ c2 ∨ o3 ≠ c3 then [255, 255, 255, 255]
     else [0, 0, 0, 255]) ++ saveMaskPixels os cs
  | _, _ => []

/-- saveMask (src/index.tsx lines 623-669), restricted to the mask
synthesis: nothing happens when the history is empty; otherwise snapshot 0
(the pristine buffer) is diffed against the current surface buffer. -/
def saveMask (canvasHistory : List Buffer) (current : Buffer) : Option Buffer :=
  match canvasHistory with
  | [] => none
  | original :: _ => some (saveMaskPixels original current)

/-- The mask editor session state: the snapshot history (canvasHistory,
src/index.tsx line 31) and the current surface buffer (the editor canvas
pixels). -/
structure EditorSession where
  history : List Buffer
  surface : Buffer
deriving Repr, DecidableEq

/-- openEditor (src/index.tsx lines 601-614): draw the staged image onto
the surface, reset the history, and push snapshot 0 (the pristine state). -/
def openEditor (pristine : Buffer) : EditorSession :=
  { history := [pristine], surface := pristine }

/-- One completed stroke or shape: the pointer events mutate the surface to
some new buffer b, and stopDraw (src/index.tsx lines 705-717) then pushes
the surface via saveCanvasState (line 672). -/
def commitStroke (st : EditorSession) (b : Buffer) : EditorSession :=
  { history := st.history ++ [b], surface := b }

/-- handleUndo (src/index.tsx lines 675-680): when more than one snapshot
exists, pop the most recent and restore the surface to the new most recent
snapshot; otherwise do nothing. -/
def handleUndo (st : EditorSession) : EditorSession :=
  if st.history.length > 1 then
    { history := st.history.dropLast,
      surface := st.history.dropLast.getLastD st.surface }
  else st

/-- The events that can change the editor session after it opens. -/
inductive EditorStep : EditorSession → EditorSession → Prop where
  | stroke (st : EditorSession) (b : Buffer) : EditorStep st (commitStroke st b)
  | undo (st : EditorSession) : EditorStep st (handleUndo st)

/-- A session state reachable from opening the editor on a pristine buffer. -/
def EditorReachable (pristine : Buffer) (st : EditorSession) : Prop :=
  Relation.ReflTransGen EditorStep (openEditor pristine) st

/-! ### Concrete sample data used by the witness theorems -/

/-- A sample stored reference image. -/
def demoImgX : StoredImage :=
  { data := "data:image/png;base64,XXXX", mimeType := "image/png" }

/-- A second sample stored reference image. -/
def demoImgY : StoredImage :=
  { data := "data:image/png;base64,YYYY", mimeType := "image/png" }

/-- A sample reference store holding keys x and y. -/
def demoStore : RefStore := [("x", demoImgX), ("y", demoImgY)]

/-- A sample staged image carrying a mask. -/
def demoStaged : StagedImage :=
  { data := "data:image/jpeg;base64,AAAA", mimeType := "image/jpeg"
    maskData := some "data:image/jpeg;base64,MMMM", maskPreviewData := none }

/-! ### Helper lemmas about the store operations -/

theorem mapHas_cons (e : String × StoredImage) (m : RefStore) (k : String) :
    mapHas (e :: m) k = (e.1 == k || mapHas m k) := by
  simp [mapHas]

theorem mapGet_cons (e : String × StoredImage) (m : RefStore) (k : String) :
    mapGet (e :: m) k = if e.1 == k then some e.2 else mapGet m k := by
  cases h : e.1 == k <;> simp [mapGet, List.find?, h]

theorem mapDelete_cons (e : String × StoredImage) (m : RefStore) (k : String) :
    mapDelete (e :: m) k = if e.1 == k then mapDelete m k else e :: mapDelete m k := by
  cases h : e.1 == k <;> simp [mapDelete, List.filter_cons, h] <;> simpa using h

theorem mapHas_iff_exists (m : RefStore) (k : String) :
    mapHas m k = true ↔ ∃ e ∈ m, e.1 = k := by
  simp [mapHas, List.any_eq_true]

theorem mapGet_eq_none_iff (m : RefStore) (k : String) :
    mapGet m k = none ↔ mapHas m k = false := by
  induction m with
  | nil => simp [mapGet, mapHas]
  | cons e m ih =>
    rw [mapGet_cons, mapHas_cons]
    cases h : e.1 == k <;> simp [h, ih]

theorem mapHas_of_mapGet_some {m : RefStore} {k : String} {v : StoredImage}
    (h : mapGet m k = some v) : mapHas m k = true := by
  by_contra hc
  rw [Bool.not_eq_true] at hc
  rw [(mapGet_eq_none_iff m k).mpr hc] at h
  exact Option.noConfusion h

theorem mapGet_append_single_self (m : RefStore) (k : String) (v : StoredImage)
    (h : mapHas m k = false) : mapGet (m ++ [(k, v)]) k = some v := by
  induction m with
  | nil => simp [mapGet, List.find?]
  | cons e m ih =>
    rw [List.cons_append, mapGet_cons]
    rw [mapHas_cons] at h
    rcases Bool.or_eq_false_iff.mp h with ⟨h1, h2⟩
    simp [h1, ih h2]

theorem mapGet_append_single_ne (m : RefStore) (k kp : String) (v : StoredImage)
    (h : kp ≠ k) : mapGet (m ++ [(k, v)]) kp = mapGet m kp := by
  induction m with
  | nil =>
    have hb : (k == kp) = false := by simpa using fun e => h e.symm
    simp [mapGet, List.find?, hb]
  | cons e m ih =>
    rw [List.cons_append, mapGet_cons, mapGet_cons]
    cases hb : e.1 == kp <;> simp [hb, ih]

theorem mapGet_delete_self (m : RefStore) (k : String) :
    mapGet (mapDelete m k) k = none := by
  induction m with
  | nil => simp [mapGet, mapDelete]
  | cons e m ih =>
    rw [mapDelete_cons]
    cases hb : e.1 == k
    · rw [if_neg (by simp [hb]), mapGet_cons]
      simp [hb, ih]
    · simpa [hb] using ih

theorem mapGet_delete_ne (m : RefStore) (k kp : String) (h : kp ≠ k) :
    mapGet (mapDelete m k) kp = mapGet m kp := by
  induction m with
  | nil => simp [mapDelete]
  | cons e m ih =>
    rw [mapDelete_cons, mapGet_cons]
    cases hb : e.1 == k
    · rw [if_neg (by simp [hb]), mapGet_cons]
      cases hb2 : e.1 == kp <;> simp [hb2, ih]
    · rw [if_pos (by simp [hb])]
      have hk : e.1 = k := by simpa using hb
      have hb2 : (e.1 == kp) = false := by
        simp only [beq_eq_false_iff_ne, ne_eq, hk]
        exact fun e2 => h e2.symm
      simp [hb2, ih]

theorem mapHas_delete_false (m : RefStore) (k kp : String)
    (h : mapHas m kp = false) : mapHas (mapDelete m k) kp = false := by
  simp only [mapHas, List.any_eq_false] at *
  intro e he
  exact h e (List.mem_of_mem_filter he)

theorem mapSet_of_not_has (m : RefStore) (k : String) (v : StoredImage)
    (h : mapHas m k = false) : mapSet m k v = m ++ [(k, v)] := by
  simp [mapSet, h]

/-! ### Helper lemmas about keys and trimming -/

theorem wordChar_not_whitespace {c : Char} (h : isWordChar c = true) :
    isJsWhitespace c = false := by
  by_contra hw
  rw [Bool.not_eq_false] at hw
  simp only [isJsWhitespace, Bool.or_eq_true, beq_iff_eq] at hw
  rcases hw with ((((((rfl | rfl) | rfl) | rfl) | rfl) | rfl) | rfl) | rfl <;>
    exact absurd h (by decide)

theorem dropWhile_ws_of_word {l : List Char} (h : ∀ c ∈ l, isWordChar c = true) :
    l.dropWhile isJsWhitespace = l := by
  cases l with
  | nil => rfl
  | cons c cs =>
    rw [List.dropWhile_cons, if_neg]
    simp [wordChar_not_whitespace (h c (List.mem_cons_self c cs))]

theorem asString_data_eq (s : String) : s.data.asString = s := rfl

theorem jsTrim_of_keyValid {s : String} (h : keyValid s = true) : jsTrim s = s := by
  have hall : ∀ c ∈ s.data, isWordChar c = true := by
    simp only [keyValid, Bool.and_eq_true, List.all_eq_true] at h
    exact h.2
  have hall2 : ∀ c ∈ s.data.reverse, isWordChar c = true := by
    intro c hc; exact hall c (List.mem_reverse.mp hc)
  unfold jsTrim
  rw [dropWhile_ws_of_word hall, dropWhile_ws_of_word hall2, List.reverse_reverse]
  exact asString_data_eq s

theorem keyValid_ne_empty {s : String} (h : keyValid s = true) : s ≠ "" := by
  intro hs
  subst hs
  exact absurd h (by decide)

/-! ### Helper lemmas about prompt resolution -/

theorem maximalTokens_nil : maximalTokens [] = [] := rfl

theorem maximalTokens_cons (c : Char) (cs : List Char) :
    maximalTokens (c :: cs) =
      (if c = '@' then
        (if (cs.takeWhile isWordChar).isEmpty then []
         else [(cs.takeWhile isWordChar).asString])
       else []) ++ maximalTokens cs := by
  have hshift :
      List.filterMap
        (fun i =>
          if (c :: cs)[i]? = some '@' then
            let run := ((c :: cs).drop (i + 1)).takeWhile isWordChar
            if run.isEmpty then none else some run.asString
          else none)
        (List.map Nat.succ (List.range cs.length)) = maximalTokens cs := by
    rw [List.filterMap_map, maximalTokens]
    apply List.filterMap_congr
    intro i _
    simp [Function.comp, List.getElem?_cons_succ, List.drop_succ_cons]
  by_cases hc : c = '@'
  · by_cases hrun : (cs.takeWhile isWordChar).isEmpty
    · rw [maximalTokens, List.length_cons, List.range_succ_eq_map,
        List.filterMap_cons_none, hshift, if_pos hc, if_pos hrun,
        List.nil_append]
      simp [hc, hrun]
    · rw [maximalTokens, List.length_cons, List.range_succ_eq_map,
        List.filterMap_cons_some (b := (cs.takeWhile isWordChar).asString),
        hshift, if_pos hc, if_neg hrun]
      · rfl
      · simp [hc, hrun]
  · rw [maximalTokens, List.length_cons, List.range_succ_eq_map,
      List.filterMap_cons_none, hshift, if_neg hc, List.nil_append]
    simp [hc]

theorem maximalTokens_word_append {l : List Char} (r : List Char)
    (h : ∀ c ∈ l, isWordChar c = true) :
    maximalTokens (l ++ r) = maximalTokens r := by
  induction l with
  | nil => rfl
  | cons c cs ih =>
    rw [List.cons_append, maximalTokens_cons, if_neg, List.nil_append]
    · exact ih (fun d hd => h d (List.mem_cons_of_mem c hd))
    · intro hc
      subst hc
      exact absurd (h '@' (List.mem_cons_self _ _)) (by decide)

theorem extractRefs_eq_maximalTokens (l : List Char) :
    extractRefs l = maximalTokens l := by
  have H : ∀ n, ∀ l : List Char, l.length ≤ n → extractRefs l = maximalTokens l := by
    intro n
    induction n with
    | zero =>
      intro l hl
      have hnil : l = [] := List.eq_nil_of_length_eq_zero (Nat.le_zero.mp hl)
      subst hnil
      simp [extractRefs, maximalTokens_nil]
    | succ n ih =>
      intro l hl
      match l with
      | [] => simp [extractRefs, maximalTokens_nil]
      | c :: cs =>
        have hcs : cs.length ≤ n := by simpa using hl
        rw [maximalTokens_cons]
        by_cases hc : c = '@'
        · subst hc
          rw [extractRefs, if_pos rfl, if_pos rfl]
          by_cases hrun : (cs.takeWhile isWordChar).isEmpty
          · rw [if_pos hrun, if_pos hrun, List.nil_append]
            exact ih cs hcs
          · rw [if_neg hrun, if_neg hrun, List.singleton_append]
            congr 1
            have hword : ∀ d ∈ cs.takeWhile isWordChar, isWordChar d = true :=
              fun d hd => List.mem_takeWhile_imp hd
            have hmt : maximalTokens cs = maximalTokens (cs.dropWhile isWordChar) := by
              conv_lhs => rw [← List.takeWhile_append_dropWhile (p := isWordChar) (l := cs)]
              exact maximalTokens_word_append _ hword
            rw [hmt]
            exact ih _
              (le_trans (List.dropWhile_sublist isWordChar (l := cs)).length_le hcs)
        · rw [extractRefs, if_neg hc, if_neg hc, List.nil_append]
          exact ih cs hcs
  exact H l.length l (Nat.le_refl _)

theorem mem_dedupFirst {a : String} : ∀ l : List String, a ∈ dedupFirst l ↔ a ∈ l := by
  intro l
  induction l with
  | nil => simp [dedupFirst]
  | cons x xs ih =>
    simp only [dedupFirst, List.mem_cons, List.mem_filter, ih, bne_iff_ne, ne_eq]
    constructor
    · rintro (rfl | ⟨hmem, _⟩)
      · exact Or.inl rfl
      · exact Or.inr hmem
    · rintro (rfl | hmem)
      · exact Or.inl rfl
      · by_cases hax : a = x
        · exact Or.inl hax
        · exact Or.inr ⟨hmem, hax⟩

theorem dedupFirst_nodup : ∀ l : List String, (dedupFirst l).Nodup := by
  intro l
  induction l with
  | nil => simp [dedupFirst]
  | cons x xs ih =>
    rw [dedupFirst, List.nodup_cons]
    refine ⟨fun hmem => ?_, List.Nodup.filter _ ih⟩
    have := (List.mem_filter.mp hmem).2
    simp at this

theorem parse_characterization (references : RefStore) (prompt : String) :
    parsePromptForReferences references prompt =
      { referencedKeys := dedupFirst (maximalTokens prompt.data)
        missingKeys := (dedupFirst (maximalTokens prompt.data)).filter
          (fun k => !(mapHas references k)) } := by
  simp [parsePromptForReferences, extractRefs_eq_maximalTokens]

theorem parse_empty (references : RefStore) :
    parsePromptForReferences references "" =
      { referencedKeys := [], missingKeys := [] } := by
  rw [parse_characterization]
  rfl

/-! ### Helper lemmas about data-URL splitting -/

theorem comma_split : ∀ l : List Char, ',' ∈ l →
    ∃ pre post, l = pre ++ ',' :: post ∧ ',' ∉ pre ∧
      (l.dropWhile (fun c => c != ',')).drop 1 = post := by
  intro l hl
  induction l with
  | nil => cases hl
  | cons c cs ih =>
    by_cases hc : c = ','
    · subst hc
      refine ⟨[], cs, rfl, by simp, ?_⟩
      rw [List.dropWhile_cons]
      simp
    · have hcs : ',' ∈ cs := by
        rcases List.mem_cons.mp hl with h1 | h1
        · exact absurd h1.symm hc
        · exact h1
      obtain ⟨pre, post, heq, hpre2, hdrop⟩ := ih hcs
      refine ⟨c :: pre, post, by rw [List.cons_append, heq], ?_, ?_⟩
      · simp only [List.mem_cons, not_or]
        exact ⟨fun h2 => hc h2.symm, hpre2⟩
      · rw [List.dropWhile_cons, if_pos (by simpa using hc)]
        exact hdrop

theorem splitOnComma_no_comma : ∀ l : List Char, ',' ∉ l → splitOnComma l = [l] := by
  intro l hl
  induction l with
  | nil => rfl
  | cons c cs ih =>
    have hc : ¬(c = ',') := fun h => hl (by rw [h]; exact List.mem_cons_self _ _)
    rw [splitOnComma, if_neg hc, ih (fun h => hl (List.mem_cons_of_mem _ h))]

theorem splitOnComma_append_comma : ∀ (pre post : List Char), ',' ∉ pre →
    splitOnComma (pre ++ ',' :: post) = pre :: splitOnComma post := by
  intro pre
  induction pre with
  | nil =>
    intro post _
    rw [List.nil_append, splitOnComma, if_pos rfl]
  | cons c pre ih =>
    intro post hpre2
    have hc : ¬(c = ',') := fun h => hpre2 (by rw [h]; exact List.mem_cons_self _ _)
    rw [List.cons_append, splitOnComma, if_neg hc,
      ih post (fun h => hpre2 (List.mem_cons_of_mem _ h))]

theorem jsSplitSecond_of_wellFormed {s : String} (h : dataUrlWellFormed s) :
    jsSplitSecond s = some (stripDataUrlHeader s) := by
  obtain ⟨hin, hout⟩ := h
  obtain ⟨pre, post, hsplit, hpre2, hdrop⟩ := comma_split s.data hin
  have hpost : ',' ∉ post := by
    rw [hdrop] at hout
    exact hout
  rw [jsSplitSecond, stripDataUrlHeader, hdrop]
  conv_lhs => rw [hsplit]
  rw [splitOnComma_append_comma pre post hpre2, splitOnComma_no_comma post hpost]
  rfl

/-! ### Helper lemmas about the mask synthesis -/

theorem saveMaskPixels_length : ∀ (n : Nat) (o c : Buffer),
    o.length = 4 * n → c.length = o.length →
    (saveMaskPixels o c).length = o.length := by
  intro n
  induction n with
  | zero =>
    intro o c ho hc
    have ho2 : o = [] := List.eq_nil_of_length_eq_zero (by omega)
    subst ho2
    have hc2 : c = [] := List.eq_nil_of_length_eq_zero (by omega)
    subst hc2
    rfl
  | succ n ih =>
    intro o c ho hc
    rcases o with _ | ⟨o0, _ | ⟨o1, _ | ⟨o2, _ | ⟨o3, os⟩⟩⟩⟩ <;>
      simp only [List.length_nil, List.length_cons] at ho hc <;> try omega
    rcases c with _ | ⟨c0, _ | ⟨c1, _ | ⟨c2, _ | ⟨c3, cs⟩⟩⟩⟩ <;>
      simp only [List.length_nil, List.length_cons] at hc <;> try omega
    have hos : os.length = 4 * n := by omega
    have hcs : cs.length = os.length := by omega
    rw [saveMaskPixels, List.length_append, ih os cs hos hcs]
    by_cases hd : o0 ≠ c0 ∨ o1 ≠ c1 ∨ o2 ≠ c2 ∨ o3 ≠ c3 <;> simp [hd] <;> omega

theorem saveMaskPixels_pixel : ∀ (n : Nat) (o c : Buffer) (j : Nat),
    o.length = 4 * n → c.length = o.length → j < n →
    ((saveMaskPixels o c).drop (4 * j)).take 4 =
      if (o.drop (4 * j)).take 4 = (c.drop (4 * j)).take 4 then [0, 0, 0, 255]
      else [255, 255, 255, 255] := by
  intro n
  induction n with
  | zero => intro o c j _ _ hj; omega
  | succ n ih =>
    intro o c j ho hc hj
    rcases o with _ | ⟨o0, _ | ⟨o1, _ | ⟨o2, _ | ⟨o3, os⟩⟩⟩⟩ <;>
      simp only [List.length_nil, List.length_cons] at ho hc <;> try omega
    rcases c with _ | ⟨c0, _ | ⟨c1, _ | ⟨c2, _ | ⟨c3, cs⟩⟩⟩⟩ <;>
      simp only [List.length_nil, List.length_cons] at hc <;> try omega
    have hos : os.length = 4 * n := by omega
    have hcs : cs.length = os.length := by omega
    rw [saveMaskPixels]
    cases j with
    | zero =>
      simp only [Nat.mul_zero, List.drop_zero]
      by_cases hd : o0 ≠ c0 ∨ o1 ≠ c1 ∨ o2 ≠ c2 ∨ o3 ≠ c3
      · rw [if_pos hd]
        have hne : ((o0 :: o1 :: o2 :: o3 :: os).take 4) ≠
            ((c0 :: c1 :: c2 :: c3 :: cs).take 4) := by
          simp only [List.take_succ_cons, List.take_zero]
          intro heq
          injection heq with h0 t
          injection t with h1 t
          injection t with h2 t
          injection t with h3 t
          rcases hd with h | h | h | h <;> exact h (by assumption)
        rw [if_neg hne]
        simp
      · rw [if_neg hd]
        push_neg at hd
        obtain ⟨h0, h1, h2, h3⟩ := hd
        rw [if_pos (by simp [h0, h1, h2, h3])]
        simp
    | succ j =>
      have h4 : 4 * (j + 1) = 4 * j + 4 := by omega
      rw [h4]
      have hdrop4 : ∀ (a b2 b3 b4 : Nat) (rest : Buffer),
          (a :: b2 :: b3 :: b4 :: rest).drop (4 * j + 4) = rest.drop (4 * j) := by
        intro a b2 b3 b4 rest
        rw [show 4 * j + 4 = (4 * j + 3) + 1 from by omega, List.drop_succ_cons,
          show 4 * j + 3 = (4 * j + 2) + 1 from by omega, List.drop_succ_cons,
          show 4 * j + 2 = (4 * j + 1) + 1 from by omega, List.drop_succ_cons,
          List.drop_succ_cons]
      rw [hdrop4, hdrop4]
      have hj2 : j < n := by omega
      by_cases hd : o0 ≠ c0 ∨ o1 ≠ c1 ∨ o2 ≠ c2 ∨ o3 ≠ c3
      · rw [if_pos hd]
        simp only [List.cons_append, List.nil_append]
        rw [hdrop4]
        exact ih os cs j hos hcs hj2
      · rw [if_neg hd]
        simp only [List.cons_append, List.nil_append]
        rw [hdrop4]
        exact ih os cs j hos hcs hj2

theorem saveMaskPixels_self : ∀ (n : Nat) (o : Buffer), o.length = 4 * n →
    saveMaskPixels o o = List.flatten (List.replicate n [0, 0, 0, 255]) := by
  intro n
  induction n with
  | zero =>
    intro o ho
    have ho2 : o = [] := List.eq_nil_of_length_eq_zero (by omega)
    subst ho2
    rfl
  | succ n ih =>
    intro o ho
    rcases o with _ | ⟨o0, _ | ⟨o1, _ | ⟨o2, _ | ⟨o3, os⟩⟩⟩⟩ <;>
      simp only [List.length_nil, List.length_cons] at ho <;> try omega
    have hos : os.length = 4 * n := by omega
    rw [saveMaskPixels, if_neg (by simp), List.replicate_succ, List.flatten_cons,
      ih os hos]

/-! ### Helper lemmas about the editor session -/

theorem editor_step_preserves {p : Buffer} {st st2 : EditorSession}
    (hstep : EditorStep st st2)
    (hne : st.history ≠ []) (hhead : st.history.head? = some p)
    (hlast : st.history.getLast? = some st.surface) :
    st2.history ≠ [] ∧ st2.history.head? = some p ∧
      st2.history.getLast? = some st2.surface := by
  cases hstep with
  | stroke b =>
    refine ⟨by simp [commitStroke], ?_, ?_⟩
    · rcases List.exists_cons_of_ne_nil hne with ⟨a, t, hat⟩
      rw [commitStroke] at *
      simp only [hat, List.cons_append, List.head?_cons] at *
      exact hhead
    · rw [commitStroke]
      exact List.getLast?_concat _
  | undo =>
    rw [handleUndo]
    by_cases hlen : st.history.length > 1
    · rw [if_pos hlen]
      have hdne : st.history.dropLast ≠ [] := by
        have hd1 : st.history.dropLast.length = st.history.length - 1 :=
          List.length_dropLast _
        exact List.ne_nil_of_length_pos (by omega)
      refine ⟨hdne, ?_, ?_⟩
      · rcases List.exists_cons_of_ne_nil hne with ⟨a, t, hat⟩
        have htne : t ≠ [] := by
          intro ht
          rw [hat, ht] at hlen
          simp at hlen
        rcases List.exists_cons_of_ne_nil htne with ⟨b, t2, hbt⟩
        subst hbt
        rw [hat] at hhead ⊢
        rw [show (a :: b :: t2).dropLast = a :: (b :: t2).dropLast from rfl]
        simpa using hhead
      · have h1 : st.history.dropLast.getLast? =
            some (st.history.dropLast.getLast hdne) :=
          List.getLast?_eq_getLast _ hdne
        rw [h1, List.getLastD_eq_getLast?, h1]
        rfl
    · rw [if_neg hlen]
      exact ⟨hne, hhead, hlast⟩

theorem editor_invariant {p : Buffer} {st : EditorSession}
    (h : EditorReachable p st) :
    st.history ≠ [] ∧ st.history.head? = some p ∧
      st.history.getLast? = some st.surface := by
  induction h with
  | refl => exact ⟨by simp [openEditor], by simp [openEditor], by simp [openEditor]⟩
  | tail hprev hstep ih =>
    obtain ⟨hne, hhead, hlast⟩ := ih
    exact editor_step_preserves hstep hne hhead hlast

/-! ### Helper lemmas about request assembly and rename -/

theorem buildApiParts_mask_eq (references : RefStore) (prompt : String)
    (img : StagedImage) (mask : String) (keys : List String)
    (refs : List StoredImage) (hmask : img.maskData = some mask)
    (hrefs : keys.mapM (fun k => mapGet references k) = some refs) :
    buildApiParts references prompt (some img) keys =
      some (ApiPart.text (if prompt ≠ "" then prompt else "Describe this image.") ::
        ApiPart.inlineData (jsSplitSecond img.data) img.mimeType ::
        ApiPart.inlineData (jsSplitSecond mask) img.mimeType ::
        refs.map (fun r => ApiPart.inlineData (jsSplitSecond r.data) r.mimeType)) := by
  have heff : (if prompt ≠ "" then prompt else "Describe this image.") ≠ "" := by
    by_cases hp : prompt = ""
    · rw [if_neg (not_not_intro hp)]
      decide
    · rw [if_pos hp]
      exact hp
  simp only [buildApiParts, hmask]
  rw [hrefs]
  simp only [Option.map_some', Option.isSome_some, if_true]
  rw [if_pos heff]
  simp [List.append_assoc]

theorem handleRename_success (references : RefStore) (oldKey newKey : String)
    (v : StoredImage) (hold : mapGet references oldKey = some v)
    (htrim : jsTrim newKey = newKey) (hval : keyValid newKey = true)
    (hnew : mapHas references newKey = false) :
    handleRename references oldKey newKey =
      some (mapDelete references oldKey ++ [(newKey, v)]) := by
  have hne : newKey ≠ oldKey := by
    intro h
    rw [h, mapHas_of_mapGet_some hold] at hnew
    exact Bool.noConfusion hnew
  rw [handleRename]
  simp only [htrim, if_neg hne, hold]
  rw [if_neg (by simp [hval, hnew])]
  rw [mapSet_of_not_has _ _ _ (mapHas_delete_false references oldKey newKey hnew)]

/-! ### Claim theorems -/

/-- C1: for every request assembled with a staged image carrying a mask and
a list of resolved reference keys (every key found in the store), the
emitted part sequence is exactly the (nonempty effective) text part first,
then the original subject image part, then the mask image part, then one
image part per resolved key in the set's insertion/traversal order; the
subject and mask parts are never swapped. -/
theorem c1_buildApiParts_order (references : RefStore) (prompt : String)
    (img : StagedImage) (mask : String) (keys : List String)
    (refs : List StoredImage) (hmask : img.maskData = some mask)
    (hrefs : keys.mapM (fun k => mapGet references k) = some refs) :
    buildApiParts references prompt (some img) keys =
      some (ApiPart.text (if prompt ≠ "" then prompt else "Describe this image.") ::
        ApiPart.inlineData (jsSplitSecond img.data) img.mimeType ::
        ApiPart.inlineData (jsSplitSecond mask) img.mimeType ::
        refs.map (fun r => ApiPart.inlineData (jsSplitSecond r.data) r.mimeType)) :=
  buildApiParts_mask_eq references prompt img mask keys refs hmask hrefs

/-- Witness for C1: the assembler applied to a concrete staged image with
a mask, the prompt combining the two demo references, and keys x and y. -/
theorem c1_buildApiParts_order_witness :
    buildApiParts demoStore "combine @x and @y" (some demoStaged) ["x", "y"] =
      some (ApiPart.text
          (if ("combine @x and @y" : String) ≠ "" then "combine @x and @y"
           else "Describe this image.") ::
        ApiPart.inlineData (jsSplitSecond demoStaged.data) demoStaged.mimeType ::
        ApiPart.inlineData (jsSplitSecond "data:image/jpeg;base64,MMMM")
          demoStaged.mimeType ::
        [demoImgX, demoImgY].map
          (fun r => ApiPart.inlineData (jsSplitSecond r.data) r.mimeType)) :=
  c1_buildApiParts_order demoStore "combine @x and @y" demoStaged
    "data:image/jpeg;base64,MMMM" ["x", "y"] [demoImgX, demoImgY] rfl rfl

/-- C3: the claim that the referenced-keys collection and the missing-keys
collection returned by parsePromptForReferences are disjoint fails on the
code: for the prompt mentioning one unknown key against the empty store,
the key appears in both returned collections. -/
theorem c3_referenced_and_missing_overlap :
    (parsePromptForReferences [] "@ghost").referencedKeys = ["ghost"] ∧
    (parsePromptForReferences [] "@ghost").missingKeys = ["ghost"] ∧
    "ghost" ∈ (parsePromptForReferences [] "@ghost").referencedKeys ∧
    "ghost" ∈ (parsePromptForReferences [] "@ghost").missingKeys := by
  rw [parse_characterization]
  decide

/-- C5: resolution extracts exactly the maximal at-sign tokens of the
prompt in first-occurrence order without duplicates, and the missing keys
are exactly the distinct extracted keys absent from the store, in
first-occurrence order; any other use of the at sign contributes no key. -/
theorem c5_parse_maximal_dedup (references : RefStore) (prompt : String) :
    (parsePromptForReferences references prompt).referencedKeys =
      dedupFirst (maximalTokens prompt.data) ∧
    (parsePromptForReferences references prompt).referencedKeys.Nodup ∧
    (parsePromptForReferences references prompt).missingKeys =
      (dedupFirst (maximalTokens prompt.data)).filter
        (fun k => !(mapHas references k)) := by
  rw [parse_characterization]
  exact ⟨rfl, dedupFirst_nodup _, rfl⟩

/-- C2: finalizing a mask produces a buffer of the surface's dimensions
whose pixels are opaque pure white exactly where some of the four channels
differ between snapshot 0 and the current surface buffer and opaque pure
black elsewhere; finalizing with the surface equal to the pristine buffer
yields the all-black buffer. -/
theorem c2_saveMask_diff (original : Buffer) (rest : List Buffer)
    (current : Buffer) (n : Nat) (hlen : original.length = 4 * n)
    (hcur : current.length = original.length) :
    saveMask (original :: rest) current = some (saveMaskPixels original current) ∧
    (saveMaskPixels original current).length = original.length ∧
    (∀ j, j < n →
      ((saveMaskPixels original current).drop (4 * j)).take 4 =
        if (original.drop (4 * j)).take 4 = (current.drop (4 * j)).take 4
        then [0, 0, 0, 255] else [255, 255, 255, 255]) ∧
    saveMask (original :: rest) original =
      some (List.flatten (List.replicate n [0, 0, 0, 255])) := by
  refine ⟨rfl, saveMaskPixels_length n original current hlen hcur,
    fun j hj => saveMaskPixels_pixel n original current j hlen hcur hj, ?_⟩
  rw [show saveMask (original :: rest) original =
      some (saveMaskPixels original original) from rfl,
    saveMaskPixels_self n original hlen]

/-- Witness for C2 on a two-pixel buffer whose second pixel was recolored. -/
theorem c2_saveMask_diff_witness :
    saveMask [[1, 2, 3, 4, 5, 6, 7, 8]] [1, 2, 3, 4, 9, 6, 7, 8] =
      some (saveMaskPixels [1, 2, 3, 4, 5, 6, 7, 8] [1, 2, 3, 4, 9, 6, 7, 8]) ∧
    (saveMaskPixels [1, 2, 3, 4, 5, 6, 7, 8] [1, 2, 3, 4, 9, 6, 7, 8]).length =
      ([1, 2, 3, 4, 5, 6, 7, 8] : Buffer).length ∧
    (∀ j, j < 2 →
      ((saveMaskPixels [1, 2, 3, 4, 5, 6, 7, 8] [1, 2, 3, 4, 9, 6, 7, 8]).drop
          (4 * j)).take 4 =
        if (([1, 2, 3, 4, 5, 6, 7, 8] : Buffer).drop (4 * j)).take 4 =
            (([1, 2, 3, 4, 9, 6, 7, 8] : Buffer).drop (4 * j)).take 4
        then [0, 0, 0, 255] else [255, 255, 255, 255]) ∧
    saveMask [[1, 2, 3, 4, 5, 6, 7, 8]] [1, 2, 3, 4, 5, 6, 7, 8] =
      some (List.flatten (List.replicate 2 [0, 0, 0, 255])) :=
  c2_saveMask_diff [1, 2, 3, 4, 5, 6, 7, 8] [] [1, 2, 3, 4, 9, 6, 7, 8] 2 rfl rfl

/-- C4: rename is atomic: renaming an existing entry to an invalid or
already-present key leaves the store exactly as it was, and a successful
rename makes the new key resolve to the original image while the old key
no longer resolves. -/
theorem c4_rename_atomic (references : RefStore) (oldKey newKey : String)
    (v : StoredImage) (hold : mapGet references oldKey = some v)
    (htrim : jsTrim newKey = newKey) :
    ((keyValid newKey = false ∨ mapHas references newKey = true) →
      handleRename references oldKey newKey = some references) ∧
    (keyValid newKey = true → mapHas references newKey = false →
      ∃ st, handleRename references oldKey newKey = some st ∧
        mapGet st newKey = some v ∧ mapGet st oldKey = none) := by
  constructor
  · intro hbad
    rw [handleRename]
    simp only [htrim]
    by_cases heq : newKey = oldKey
    · rw [if_pos heq]
    · rw [if_neg heq]
      rcases hbad with hkv | hhas
      · rw [if_pos (by simp [hkv])]
      · rw [if_pos (by simp [hhas, bne_iff_ne, heq])]
  · intro hval hnew
    refine ⟨mapDelete references oldKey ++ [(newKey, v)],
      handleRename_success references oldKey newKey v hold htrim hval hnew, ?_, ?_⟩
    · exact mapGet_append_single_self _ _ _
        (mapHas_delete_false references oldKey newKey hnew)
    · have hne : oldKey ≠ newKey := by
        intro h
        rw [← h, mapHas_of_mapGet_some hold] at hnew
        exact Bool.noConfusion hnew
      rw [mapGet_append_single_ne _ _ _ _ hne, mapGet_delete_self]

/-- Witness for C4 on a one-entry store renamed from A to B. -/
theorem c4_rename_atomic_witness :
    ((keyValid "B" = false ∨ mapHas [("A", demoImgX)] "B" = true) →
      handleRename [("A", demoImgX)] "A" "B" = some [("A", demoImgX)]) ∧
    (keyValid "B" = true → mapHas [("A", demoImgX)] "B" = false →
      ∃ st, handleRename [("A", demoImgX)] "A" "B" = some st ∧
        mapGet st "B" = some demoImgX ∧ mapGet st "A" = none) :=
  c4_rename_atomic [("A", demoImgX)] "A" "B" demoImgX rfl rfl

/-- C10: a successful rename removes the old entry from its place in the
enumeration order and appends the renamed entry at the end, every other
entry keeping its previous relative order and value. -/
theorem c10_rename_moves_to_end (references : RefStore) (oldKey newKey : String)
    (v : StoredImage) (hold : mapGet references oldKey = some v)
    (htrim : jsTrim newKey = newKey) (hval : keyValid newKey = true)
    (hnew : mapHas references newKey = false) :
    handleRename references oldKey newKey =
      some (mapDelete references oldKey ++ [(newKey, v)]) :=
  handleRename_success references oldKey newKey v hold htrim hval hnew

/-- Witness for C10 on a two-entry store: renaming the first entry moves it
behind the second. -/
theorem c10_rename_moves_to_end_witness :
    handleRename [("x", demoImgX), ("y", demoImgY)] "x" "z" =
      some (mapDelete [("x", demoImgX), ("y", demoImgY)] "x" ++ [("z", demoImgX)]) :=
  c10_rename_moves_to_end [("x", demoImgX), ("y", demoImgY)] "x" "z" demoImgX
    rfl rfl rfl rfl

/-- C6: every reachable editor session keeps at least one snapshot; undo
never reduces the history below one snapshot (and stays reachable); and
once only the pristine snapshot remains, undo is a no-op and the visible
surface equals the pristine buffer. -/
theorem c6_undo_bounded (p : Buffer) (st : EditorSession)
    (h : EditorReachable p st) :
    1 ≤ st.history.length ∧
    1 ≤ (handleUndo st).history.length ∧
    EditorReachable p (handleUndo st) ∧
    (st.history = [p] → handleUndo st = st ∧ st.surface = p) := by
  obtain ⟨hne, hhead, hlast⟩ := editor_invariant h
  refine ⟨List.length_pos.mpr hne, ?_, ?_, ?_⟩
  · rw [handleUndo]
    by_cases hlen : st.history.length > 1
    · rw [if_pos hlen]
      simp only [List.length_dropLast]
      omega
    · rw [if_neg hlen]
      exact List.length_pos.mpr hne
  · exact Relation.ReflTransGen.tail h (EditorStep.undo st)
  · intro hsingle
    constructor
    · rw [handleUndo, if_neg]
      rw [hsingle]
      simp
    · rw [hsingle] at hlast
      simp only [List.getLast?_singleton, Option.some.injEq] at hlast
      exact hlast.symm

/-- Witness for C6 at the freshly opened editor session. -/
theorem c6_undo_bounded_witness :
    1 ≤ (openEditor [0]).history.length ∧
    1 ≤ (handleUndo (openEditor [0])).history.length ∧
    EditorReachable [0] (handleUndo (openEditor [0])) ∧
    ((openEditor [0]).history = [[0]] →
      handleUndo (openEditor [0]) = openEditor [0] ∧
        (openEditor [0]).surface = [0]) :=
  c6_undo_bounded [0] (openEditor [0]) Relation.ReflTransGen.refl

/-- C7: on a store whose keys all satisfy the key-format rule, saving under
a valid absent key succeeds and the key then resolves to the saved image,
while saving under a present key fails with the key-taken outcome and
leaves the store unchanged. -/
theorem c7_save_key (references : RefStore) (img : StoredImage)
    (src : SaveSource) (key : String)
    (hstore : ∀ e ∈ references, keyValid e.1 = true) :
    (keyValid key = true → mapHas references key = false →
      handleSaveKey references (some img) src key =
        (.saved, mapSet references key img) ∧
      mapGet (mapSet references key img) key = some img) ∧
    (mapHas references key = true →
      handleSaveKey references (some img) src key = (.keyTaken, references)) := by
  constructor
  · intro hval hnew
    have htrim := jsTrim_of_keyValid hval
    have hne := keyValid_ne_empty hval
    constructor
    · simp [handleSaveKey, htrim, hne, hval, hnew]
    · rw [mapSet_of_not_has references key img hnew]
      exact mapGet_append_single_self references key img hnew
  · intro hhas
    obtain ⟨e, hem, hek⟩ := (mapHas_iff_exists references key).mp hhas
    have hval : keyValid key = true := hek ▸ hstore e hem
    have htrim := jsTrim_of_keyValid hval
    have hne := keyValid_ne_empty hval
    simp [handleSaveKey, htrim, hne, hval, hhas]

/-- Witness for C7 on a one-entry store with a fresh key b and the taken
key a. -/
theorem c7_save_key_witness :
    ((keyValid "b" = true → mapHas [("a", demoImgX)] "b" = false →
      handleSaveKey [("a", demoImgX)] (some demoImgY) SaveSource.generated "b" =
        (.saved, mapSet [("a", demoImgX)] "b" demoImgY) ∧
      mapGet (mapSet [("a", demoImgX)] "b" demoImgY) "b" = some demoImgY) ∧
    (mapHas [("a", demoImgX)] "b" = true →
      handleSaveKey [("a", demoImgX)] (some demoImgY) SaveSource.generated "b" =
        (.keyTaken, [("a", demoImgX)]))) ∧
    ((keyValid "a" = true → mapHas [("a", demoImgX)] "a" = false →
      handleSaveKey [("a", demoImgX)] (some demoImgY) SaveSource.generated "a" =
        (.saved, mapSet [("a", demoImgX)] "a" demoImgY) ∧
      mapGet (mapSet [("a", demoImgX)] "a" demoImgY) "a" = some demoImgY) ∧
    (mapHas [("a", demoImgX)] "a" = true →
      handleSaveKey [("a", demoImgX)] (some demoImgY) SaveSource.generated "a" =
        (.keyTaken, [("a", demoImgX)]))) :=
  ⟨c7_save_key [("a", demoImgX)] demoImgY SaveSource.generated "b"
      (by decide),
    c7_save_key [("a", demoImgX)] demoImgY SaveSource.generated "a"
      (by decide)⟩

/-- C8: whenever resolution of the submitted prompt yields missing keys,
the orchestrator renders exactly one error message enumerating all of them
and never issues a model request. -/
theorem c8_missing_keys_abort (references : RefStore) (prompt : String)
    (image : Option StagedImage)
    (hmiss : (parsePromptForReferences references prompt).missingKeys ≠ []) :
    callGeminiApi references prompt image =
      ApiAction.message
        (missingKeysMessage
          (parsePromptForReferences references prompt).missingKeys) ∧
    ∀ parts, callGeminiApi references prompt image ≠ ApiAction.request parts := by
  have hp : ¬(prompt = "" ∧ image = none) := by
    rintro ⟨hp0, _⟩
    subst hp0
    rw [parse_empty] at hmiss
    exact hmiss rfl
  have hcall : callGeminiApi references prompt image =
      ApiAction.message
        (missingKeysMessage
          (parsePromptForReferences references prompt).missingKeys) := by
    rw [callGeminiApi]
    rw [if_neg hp, if_pos hmiss]
  exact ⟨hcall, fun parts hreq => by
    rw [hcall] at hreq
    exact ApiAction.noConfusion hreq⟩

/-- Witness for C8: one unknown reference against the empty store. -/
theorem c8_missing_keys_abort_witness :
    callGeminiApi [] "@nope" none =
      ApiAction.message
        (missingKeysMessage (parsePromptForReferences [] "@nope").missingKeys) ∧
    ∀ parts, callGeminiApi [] "@nope" none ≠ ApiAction.request parts :=
  c8_missing_keys_abort [] "@nope" none
    (by rw [parse_characterization]; decide)

/-- C9: when the stored strings are well-formed data URLs, every emitted
image part carries exactly the raw encoded payload after the separator
(the envelope stripped) and the stored mime type verbatim. -/
theorem c9_parts_strip_header (references : RefStore) (prompt : String)
    (img : StagedImage) (mask : String) (keys : List String)
    (refs : List StoredImage) (hmask : img.maskData = some mask)
    (hrefs : keys.mapM (fun k => mapGet references k) = some refs)
    (himg : dataUrlWellFormed img.data) (hm : dataUrlWellFormed mask)
    (hr : ∀ r ∈ refs, dataUrlWellFormed r.data) :
    buildApiParts references prompt (some img) keys =
      some (ApiPart.text (if prompt ≠ "" then prompt else "Describe this image.") ::
        ApiPart.inlineData (some (stripDataUrlHeader img.data)) img.mimeType ::
        ApiPart.inlineData (some (stripDataUrlHeader mask)) img.mimeType ::
        refs.map (fun r =>
          ApiPart.inlineData (some (stripDataUrlHeader r.data)) r.mimeType)) := by
  have hmap : refs.map
      (fun r => ApiPart.inlineData (jsSplitSecond r.data) r.mimeType) =
      refs.map (fun r =>
        ApiPart.inlineData (some (stripDataUrlHeader r.data)) r.mimeType) :=
    List.map_congr_left
      (fun r hrm => by rw [jsSplitSecond_of_wellFormed (hr r hrm)])
  rw [buildApiParts_mask_eq references prompt img mask keys refs hmask hrefs,
    jsSplitSecond_of_wellFormed himg, jsSplitSecond_of_wellFormed hm, hmap]

/-- Witness for C9 on the concrete demo staged image, mask and store. -/
theorem c9_parts_strip_header_witness :
    buildApiParts demoStore "combine @x and @y" (some demoStaged) ["x", "y"] =
      some (ApiPart.text
          (if ("combine @x and @y" : String) ≠ "" then "combine @x and @y"
           else "Describe this image.") ::
        ApiPart.inlineData (some (stripDataUrlHeader demoStaged.data))
          demoStaged.mimeType ::
        ApiPart.inlineData (some (stripDataUrlHeader "data:image/jpeg;base64,MMMM"))
          demoStaged.mimeType ::
        [demoImgX, demoImgY].map (fun r =>
          ApiPart.inlineData (some (stripDataUrlHeader r.data)) r.mimeType)) :=
  c9_parts_strip_header demoStore "combine @x and @y" demoStaged
    "data:image/jpeg;base64,MMMM" ["x", "y"] [demoImgX, demoImgY] rfl rfl
    (by decide) (by decide) (by decide)
